import Mathlib

/-!
Verification development for the PyLevelSampler gauge vision pipeline.

The definitions below are a shallow embedding of the two files that make up
the pipeline: gauge_logic.py (class GaugeReader: get_warped_gauge,
find_water_line, read_level) and digital_reader.py (the detector-line
regex and the driver loop).  Machine floats are modelled by exact
rationals, strings by lists of characters (ASCII semantics for the
character classes used by the regex and by str.isdigit / str.lower),
and the external collaborators (the Hailo detector stream, rpicam-still,
cv2.imread, easyocr) become explicit inputs of the driver step function.
-/

/-! ## Python string and number helpers -/

/-- Numeric value of a digit string, as computed by Python int() on a
string of ASCII digits (the regex groups matched by a digit-class
quantifier are always of this shape). -/
def natOfDigits (s : List Char) : ℕ :=
  s.foldl (fun a c => 10 * a + (c.toNat - 48)) 0

/-- Python str.isdigit for ASCII text: nonempty and all characters are
decimal digits.  This is the test applied to each OCR text in
GaugeReader.read_level, line 42 of gauge_logic.py. -/
def pyIsDigit (s : List Char) : Bool :=
  !s.isEmpty && s.all Char.isDigit

/-- Python str.lower restricted to ASCII letters, used on the detector
label in line 44 of digital_reader.py. -/
def pyLower (s : List Char) : List Char :=
  s.map (fun c => if 'A' ≤ c ∧ c ≤ 'Z' then Char.ofNat (c.toNat + 32) else c)

/-- Python float() applied to a string drawn from the regex class of
digits and dots.  Such a string is a valid float literal exactly when it
contains at most one dot and at least one digit; otherwise float()
raises ValueError, modelled by none.  The numeric value is exact, with
rationals standing in for IEEE doubles. -/
def pyFloat (s : List Char) : Option ℚ :=
  if s.isEmpty then none
  else if s.count '.' = 0 then some (natOfDigits s)
  else if s.count '.' = 1 then
    let ip := s.takeWhile (fun c => !(c == '.'))
    let fp := (s.dropWhile (fun c => !(c == '.'))).drop 1
    if ip.isEmpty && fp.isEmpty then none
    else some ((natOfDigits ip : ℚ) + (natOfDigits fp : ℚ) / (10 : ℚ) ^ fp.length)
  else none

/-- Round a rational to the nearest integer, halves to the even integer.
This is the rounding used by Python round() (modelled on exact values,
with rationals standing in for IEEE doubles). -/
def roundHalfEven (q : ℚ) : ℤ :=
  let f := ⌊q⌋
  let frac := q - f
  if frac < 1 / 2 then f
  else if 1 / 2 < frac then f + 1
  else if f % 2 = 0 then f else f + 1

/-- Python round(x, 2): round to two decimal places, halves to even. -/
def pyRound2 (q : ℚ) : ℚ :=
  (roundHalfEven (q * 100) : ℚ) / 100

/-! ## Detection Event Parser

The driver uses re.search with the pattern
Object: whitespace (word)[digits] whitespace ((digits-or-dots)) whitespace
at whitespace (digits),(digits) whitespace (digits)x(digits)
from line 25 of digital_reader.py.  For this particular pattern every
greedy character-class quantifier is followed by a character outside the
class, so greedy matching without backtracking realises exactly the
regex semantics; re.search takes the leftmost starting position at which
the anchored pattern matches. -/

/-- ASCII word character, the regex class of letters, digits and
underscore. -/
def isWordChar (c : Char) : Bool :=
  c.isAlpha || c.isDigit || c == '_'

/-- ASCII whitespace, the regex whitespace class. -/
def isSpaceChar (c : Char) : Bool :=
  c == ' ' || c == '\t' || c == '\n' || c == '\r' || c == '\x0b' || c == '\x0c'

/-- Character allowed in the confidence group: a digit or a dot. -/
def isConfChar (c : Char) : Bool :=
  c.isDigit || c == '.'

/-- Consume an exact literal from the front of the input, or fail. -/
def dropLit : List Char → List Char → Option (List Char)
  | [], s => some s
  | _ :: _, [] => none
  | c :: cs, d :: ds => if c == d then dropLit cs ds else none

/-- Consume one or more characters of a class from the front of the
input (greedy), returning the consumed run and the rest. -/
def takePlus (p : Char → Bool) (s : List Char) : Option (List Char × List Char) :=
  let t := s.takeWhile p
  if t.isEmpty then none else some (t, s.dropWhile p)

/-- The six capture groups of a matched detector line: label text,
confidence text, and the four box fields as raw digit strings (the
driver converts them with int() later). -/
structure Groups where
  label : List Char
  conf : List Char
  xs : List Char
  ys : List Char
  ws : List Char
  hs : List Char
deriving DecidableEq

/-- Front half of the anchored detector pattern: the literal Object:
header, the label group, the bracketed id and the parenthesised
confidence group.  Returns the label text, the confidence text and the
remaining input after the closing parenthesis. -/
def matchFront (s : List Char) : Option (List Char × List Char × List Char) := do
  let s1 ← dropLit ("Object:".toList) s
  let sp1 ← takePlus isSpaceChar s1
  let lab ← takePlus isWordChar sp1.2
  let s2 ← dropLit ("[".toList) lab.2
  let idg ← takePlus Char.isDigit s2
  let s3 ← dropLit ("]".toList) idg.2
  let sp2 ← takePlus isSpaceChar s3
  let s4 ← dropLit ("(".toList) sp2.2
  let cf ← takePlus isConfChar s4
  let s5 ← dropLit (")".toList) cf.2
  some (lab.1, cf.1, s5)

/-- Back half of the anchored detector pattern: the at sign followed by
the position pair and the size pair.  Returns the four digit groups. -/
def matchBack (s : List Char) : Option (List Char × List Char × List Char × List Char) := do
  let sp3 ← takePlus isSpaceChar s
  let s6 ← dropLit ("@".toList) sp3.2
  let sp4 ← takePlus isSpaceChar s6
  let gx ← takePlus Char.isDigit sp4.2
  let s7 ← dropLit (",".toList) gx.2
  let gy ← takePlus Char.isDigit s7
  let sp5 ← takePlus isSpaceChar gy.2
  let gw ← takePlus Char.isDigit sp5.2
  let s8 ← dropLit ("x".toList) gw.2
  let gh ← takePlus Char.isDigit s8
  some (gx.1, gy.1, gw.1, gh.1)

/-- Attempt the anchored detector pattern at the start of the input. -/
def matchAt (s : List Char) : Option Groups := do
  let front ← matchFront s
  let back ← matchBack front.2.2
  some ⟨front.1, front.2.1, back.1, back.2.1, back.2.2.1, back.2.2.2⟩

/-- Leftmost search of the detector pattern in a line, the semantics of
re.search on line 38 of digital_reader.py. -/
def search : List Char → Option Groups
  | [] => none
  | c :: cs =>
    match matchAt (c :: cs) with
    | some g => some g
    | none => search cs

/-! ## Numeral Calibrator (GaugeReader.read_level)

Lines 37 to 53 of gauge_logic.py.  An easyocr result is a triple of a
four-point bounding box, a text and a confidence; read_level scans the
results in the native output order, takes the first whose text is purely
digits with confidence strictly above 0.5, and converts the pixel offset
between the water line row and the numeral center row into a level. -/

/-- One easyocr recognition result: four bounding box corner points in
x, y order (top-left, top-right, bottom-right, bottom-left), the
recognised text and the confidence.  Coordinates are rationals standing
in for the Python numbers. -/
structure OcrResult where
  p0 : ℚ × ℚ
  p1 : ℚ × ℚ
  p2 : ℚ × ℚ
  p3 : ℚ × ℚ
  text : List Char
  prob : ℚ
deriving DecidableEq

/-- The filter on line 42 of gauge_logic.py: text purely digits and
confidence strictly above 0.5. -/
def qualifies (r : OcrResult) : Prop :=
  pyIsDigit r.text = true ∧ 1 / 2 < r.prob

instance (r : OcrResult) : Decidable (qualifies r) := by
  unfold qualifies
  infer_instance

/-- The unrounded level of lines 44 to 50 of gauge_logic.py: digit_y is
the midpoint of the row coordinates of corners 0 and 2, pixels_per_cm
is the constant 5.0, diff_cm = (water_y - digit_y) / pixels_per_cm and
final_level = int(text) - diff_cm. -/
def rawLevel (r : OcrResult) (waterY : ℚ) : ℚ :=
  (natOfDigits r.text : ℚ) - (waterY - (r.p0.2 + r.p2.2) / 2) / 5

/-- GaugeReader.read_level: the loop over OCR results.  The first
qualifying result yields (round(final_level, 2), text); if none
qualifies the function returns (None, None). -/
def readLevel : List OcrResult → ℚ → Option ℚ × Option (List Char)
  | [], _ => (none, none)
  | r :: rest, waterY =>
    if qualifies r then
      (some (pyRound2 (rawLevel r waterY)), some r.text)
    else readLevel rest waterY

/-! ## Water-Line Locator (GaugeReader.find_water_line)

Lines 21 to 35 of gauge_logic.py.  The OpenCV calls are modelled
pixel-exactly where the claims depend on them: BGR to gray uses the
fixed-point luminance coefficients of cvtColor, the 7x7 Gaussian blur
with sigma 0 uses the fixed OpenCV small-kernel tap values normalised
to 256 with the standard fixed-point rounding, the Sobel filter of
order 1 in y with aperture 3 uses its integer kernel, and out-of-range
samples use the default reflected border (BORDER_REFLECT_101). -/

/-- An in-memory raster with three 8-bit channels in B, G, R order,
indexed row first. -/
abbrev Image3 := ℕ → ℕ → ℕ × ℕ × ℕ

/-- Fixed-point BGR luminance of cvtColor with COLOR_BGR2GRAY:
(1868 B + 9617 G + 4899 R + 8192) divided by 2 to the 14. -/
def grayPix (p : ℕ × ℕ × ℕ) : ℕ :=
  (1868 * p.1 + 9617 * p.2.1 + 4899 * p.2.2 + 8192) / 16384

/-- Single-channel image of luminances. -/
def grayOf (img : Image3) : ℕ → ℕ → ℕ :=
  fun i j => grayPix (img i j)

/-- BORDER_REFLECT_101 index folding: an arbitrary integer index is
reflected into the valid range without repeating the edge pixel. -/
def reflect101 (n : ℕ) (i : ℤ) : ℕ :=
  if n ≤ 1 then 0
  else
    let m := i.emod (2 * ((n : ℤ) - 1))
    (if m < n then m else 2 * ((n : ℤ) - 1) - m).toNat

/-- Sample a single-channel image at possibly out-of-range integer
coordinates through the reflected border. -/
def sample (h w : ℕ) (f : ℕ → ℕ → ℕ) (i j : ℤ) : ℕ :=
  f (reflect101 h i) (reflect101 w j)

/-- The seven taps of the OpenCV Gaussian kernel for size 7 and sigma 0,
scaled by 256 (they sum to 256), paired with their offsets. -/
def gaussOffsets : List (ℤ × ℕ) :=
  [(-3, 8), (-2, 28), (-1, 56), (0, 72), (1, 56), (2, 28), (3, 8)]

/-- Fixed-point 7x7 Gaussian blur of an 8-bit channel: the separable
kernel contributes a total weight of 65536, and the accumulated sum is
rounded by adding 32768 before the shift. -/
def blur (h w : ℕ) (f : ℕ → ℕ → ℕ) (i j : ℕ) : ℕ :=
  ((gaussOffsets.map fun di =>
      (gaussOffsets.map fun dj =>
        di.2 * dj.2 * sample h w f ((i : ℤ) + di.1) ((j : ℤ) + dj.1)).sum).sum
    + 32768) / 65536

/-- Sobel filter of order 0 in x and 1 in y with aperture 3 on a
single-channel image, signed output. -/
def sobelY (h w : ℕ) (f : ℕ → ℕ → ℕ) (i j : ℕ) : ℤ :=
  ((sample h w f ((i : ℤ) + 1) ((j : ℤ) - 1) : ℤ)
      + 2 * (sample h w f ((i : ℤ) + 1) (j : ℤ) : ℤ)
      + (sample h w f ((i : ℤ) + 1) ((j : ℤ) + 1) : ℤ))
    - ((sample h w f ((i : ℤ) - 1) ((j : ℤ) - 1) : ℤ)
      + 2 * (sample h w f ((i : ℤ) - 1) (j : ℤ) : ℤ)
      + (sample h w f ((i : ℤ) - 1) ((j : ℤ) + 1) : ℤ))

/-- Row sum of absolute Sobel responses over the blurred luminance, the
edge energy of one row (lines 27 to 31 of gauge_logic.py). -/
def rowEnergy (h w : ℕ) (img : Image3) (i : ℕ) : ℕ :=
  ((List.range w).map fun j =>
    (sobelY h w (blur h w (grayOf img)) i j).natAbs).sum

/-- The scan behind numpy argmax: walk the remaining indices keeping the
current best, replacing it only on a strictly larger value, so the
first maximal index wins. -/
def argmaxGo (f : ℕ → ℕ) : ℕ → ℕ → ℕ → ℕ
  | best, _, 0 => best
  | best, i, Nat.succ n => argmaxGo f (if f best < f i then i else best) (i + 1) n

/-- GaugeReader.find_water_line: the index of the row of maximal edge
energy (line 34 of gauge_logic.py, numpy argmax over the row sums). -/
def findWaterLine (h w : ℕ) (img : Image3) : ℕ :=
  argmaxGo (rowEnergy h w img) 0 1 (h - 1)

/-! ## Perspective Rectifier (GaugeReader.get_warped_gauge)

Lines 13 to 19 of gauge_logic.py.  The source corners are the four
axis-aligned corners of the detection box, in the order top-left,
top-right, bottom-right, bottom-left; the destination corners are the
corners of the fixed 150 by 600 target strip.  For these two
axis-aligned quadrilaterals the unique homography of
cv2.getPerspectiveTransform is the affine change of scale, and
cv2.warpPerspective samples the source frame through its inverse with
bilinear interpolation and a constant zero border.  Exact rational
arithmetic stands in for the OpenCV fixed-point interpolation tables. -/

/-- Target strip width, the constant TARGET_W of gauge_logic.py. -/
def TARGET_W : ℕ := 150

/-- Target strip height, the constant TARGET_H of gauge_logic.py. -/
def TARGET_H : ℕ := 600

/-- The source quadrilateral of line 15 of gauge_logic.py, built from
the raw box fields with no adjustment. -/
def sourcePts (x y w h : ℕ) : List (ℕ × ℕ) :=
  [(x, y), (x + w, y), (x + w, y + h), (x, y + h)]

/-- The destination quadrilateral of line 16 of gauge_logic.py. -/
def destPts : List (ℕ × ℕ) :=
  [(0, 0), (TARGET_W, 0), (TARGET_W, TARGET_H), (0, TARGET_H)]

/-- A decoded camera frame: its pixel grid with its height and width. -/
structure Frame where
  H : ℕ
  W : ℕ
  pix : ℕ → ℕ → ℕ × ℕ × ℕ

/-- Read a frame pixel at integer coordinates, constant zero outside
the frame (the default warp border). -/
def borderPix (fr : Frame) (i j : ℤ) : ℕ × ℕ × ℕ :=
  if 0 ≤ i ∧ i < (fr.H : ℤ) ∧ 0 ≤ j ∧ j < (fr.W : ℤ) then
    fr.pix i.toNat j.toNat
  else (0, 0, 0)

/-- Bilinear interpolation of the three channels at rational source
coordinates (row coordinate first), rounded and saturated to 8 bits. -/
def bilinearAt (fr : Frame) (sy sx : ℚ) : ℕ × ℕ × ℕ :=
  let y0 : ℤ := ⌊sy⌋
  let x0 : ℤ := ⌊sx⌋
  let fy : ℚ := sy - y0
  let fx : ℚ := sx - x0
  let g : ℤ → ℤ → ℕ × ℕ × ℕ := fun dy dx => borderPix fr (y0 + dy) (x0 + dx)
  let mix : ((ℕ × ℕ × ℕ) → ℕ) → ℕ := fun sel =>
    min 255 (roundHalfEven
      ((1 - fy) * (1 - fx) * sel (g 0 0) + (1 - fy) * fx * sel (g 0 1)
        + fy * (1 - fx) * sel (g 1 0) + fy * fx * sel (g 1 1))).toNat
  (mix (fun p => p.1), mix (fun p => p.2.1), mix (fun p => p.2.2))

/-- GaugeReader.get_warped_gauge: the rectified strip, sampling the
frame through the inverse of the transform that carries sourcePts to
destPts. -/
def getWarpedGauge (fr : Frame) (x y w h : ℕ) : Image3 :=
  fun v u =>
    bilinearAt fr ((y : ℚ) + (v : ℚ) * (h : ℚ) / (TARGET_H : ℚ))
      ((x : ℚ) + (u : ℚ) * (w : ℚ) / (TARGET_W : ℚ))

/-! ## Driver loop (digital_reader.py)

One iteration of the while loop for one detector line.  The external
collaborators appear as inputs: the result of cv2.imread after the
rpicam-still capture (none models an unreadable or undecodable
snapshot), and the easyocr results that reader.readtext would produce
on the warped strip.  The observable effects of the iteration are
whether a CSV record was appended, whether the 10 second cool-down
sleep on line 81 ran, and whether an exception escaped the loop. -/

/-- The fixed target label of line 9 of digital_reader.py. -/
def TARGET_LABEL : List Char := "staff_gauge".toList

/-- The actionability test of line 44 of digital_reader.py: lowercased
label equal to the target and confidence strictly above 0.3. -/
def actionable (label : List Char) (conf : ℚ) : Prop :=
  pyLower label = TARGET_LABEL ∧ 3 / 10 < conf

instance (label : List Char) (conf : ℚ) : Decidable (actionable label conf) := by
  unfold actionable
  infer_instance

/-- Observable outcome of one driver-loop iteration: the CSV record
appended (level and reference numeral written on line 69), whether the
cool-down sleep ran, and whether an uncaught exception terminated the
loop. -/
structure StepOut where
  wrote : Option (ℚ × Option (List Char))
  slept : Bool
  crashed : Bool
deriving DecidableEq

/-- One iteration of the driver loop of digital_reader.py, lines 33 to
81, for one line of detector output.  A line with no pattern match is
skipped.  On a match, float() on the confidence group runs outside any
exception handler, so an invalid group is an uncaught ValueError.  On
an actionable detection, a failed capture hits the continue on line 53,
skipping the rest of the body including the sleep.  Otherwise the box
fields are converted with int(), the pipeline runs, a record is written
exactly when the returned level is present, and the iteration ends with
the sleep. -/
def driverStep (cap : Option Frame) (ocr : List OcrResult) (line : List Char) : StepOut :=
  match search line with
  | none => ⟨none, false, false⟩
  | some g =>
    match pyFloat g.conf with
    | none => ⟨none, false, true⟩
    | some conf =>
      if actionable g.label conf then
        match cap with
        | none => ⟨none, false, false⟩
        | some fr =>
          match readLevel ocr
            ((findWaterLine TARGET_H TARGET_W
              (getWarpedGauge fr (natOfDigits g.xs) (natOfDigits g.ys)
                (natOfDigits g.ws) (natOfDigits g.hs)) : ℕ) : ℚ) with
          | (some l, ref) => ⟨some (l, ref), true, false⟩
          | (none, _) => ⟨none, true, false⟩
      else ⟨none, false, false⟩

/-! ## Helper lemmas about the Numeral Calibrator -/

/-- The scan of read_level returns the first qualifying result: any
prefix of non-qualifying results is skipped and the first qualifying
result determines both components of the return value. -/
lemma readLevel_first (pre : List OcrResult) (r : OcrResult) (post : List OcrResult)
    (wy : ℚ) (hpre : ∀ s ∈ pre, ¬ qualifies s) (hr : qualifies r) :
    readLevel (pre ++ r :: post) wy = (some (pyRound2 (rawLevel r wy)), some r.text) := by
  induction pre with
  | nil =>
    simp only [List.nil_append, readLevel]
    rw [if_pos hr]
  | cons a as ih =>
    have ha : ¬ qualifies a := hpre a (List.mem_cons_self a as)
    simp only [List.cons_append, readLevel]
    rw [if_neg ha]
    exact ih (fun s hs => hpre s (List.mem_cons_of_mem a hs))

/-- When no result qualifies, read_level returns the absent pair. -/
lemma readLevel_none (results : List OcrResult) (wy : ℚ)
    (h : ∀ s ∈ results, ¬ qualifies s) :
    readLevel results wy = (none, none) := by
  induction results with
  | nil => rfl
  | cons a as ih =>
    have ha : ¬ qualifies a := h a (List.mem_cons_self a as)
    simp only [readLevel]
    rw [if_neg ha]
    exact ih (fun s hs => h s (List.mem_cons_of_mem a hs))

/-- Any present level returned by read_level comes from a qualifying
result of the input list, is the rounded calibration value of that
result, and is accompanied by that result's text. -/
lemma readLevel_some (results : List OcrResult) (wy : ℚ) (l : ℚ)
    (h : (readLevel results wy).1 = some l) :
    ∃ r, r ∈ results ∧ qualifies r ∧ l = pyRound2 (rawLevel r wy) ∧
      (readLevel results wy).2 = some r.text := by
  induction results with
  | nil => simp [readLevel] at h
  | cons a as ih =>
    by_cases ha : qualifies a
    · refine ⟨a, List.mem_cons_self a as, ha, ?_, ?_⟩
      · simp only [readLevel] at h
        rw [if_pos ha] at h
        exact Option.some_injective ℚ h.symm
      · simp only [readLevel]
        rw [if_pos ha]
    · simp only [readLevel] at h ⊢
      rw [if_neg ha] at h ⊢
      obtain ⟨r, hr, hq, hl, ht⟩ := ih h
      exact ⟨r, List.mem_cons_of_mem a hr, hq, hl, ht⟩

/-- The two components of the read_level return value are present or
absent together. -/
lemma readLevel_isSome (results : List OcrResult) (wy : ℚ) :
    (readLevel results wy).1.isSome = (readLevel results wy).2.isSome := by
  induction results with
  | nil => rfl
  | cons a as ih =>
    by_cases ha : qualifies a
    · simp only [readLevel]
      rw [if_pos ha]
      rfl
    · simp only [readLevel]
      rw [if_neg ha]
      exact ih

/-! ## Helper lemmas about the Water-Line Locator -/

/-- Specification of the argmax scan: starting from a best index that
is maximal and first-maximal among the indices already seen, the scan
returns an index below the final bound that is maximal among all
scanned indices and strictly above every earlier index. -/
lemma argmaxGo_spec (f : ℕ → ℕ) :
    ∀ (n best i : ℕ), best < i →
      (∀ j, j < i → f j ≤ f best) → (∀ j, j < best → f j < f best) →
      argmaxGo f best i n < i + n ∧
        (∀ j, j < i + n → f j ≤ f (argmaxGo f best i n)) ∧
        (∀ j, j < argmaxGo f best i n → f j < f (argmaxGo f best i n)) := by
  intro n
  induction n with
  | zero =>
    intro best i hbi hmax hfirst
    exact ⟨by simpa using hbi, fun j hj => hmax j (by simpa using hj), hfirst⟩
  | succ n ih =>
    intro best i hbi hmax hfirst
    have harith : i + (n + 1) = (i + 1) + n := by omega
    by_cases hc : f best < f i
    · have h1 : argmaxGo f best i (n + 1) = argmaxGo f i (i + 1) n := by
        simp only [argmaxGo]
        rw [if_pos hc]
      have hmax2 : ∀ j, j < i + 1 → f j ≤ f i := by
        intro j hj
        rcases Nat.lt_succ_iff_lt_or_eq.mp hj with h | h
        · exact le_of_lt (lt_of_le_of_lt (hmax j h) hc)
        · exact le_of_eq (congrArg f h)
      have hfirst2 : ∀ j, j < i → f j < f i := by
        intro j hj
        exact lt_of_le_of_lt (hmax j hj) hc
      rw [h1, harith]
      exact ih i (i + 1) (Nat.lt_succ_self i) hmax2 hfirst2
    · have h1 : argmaxGo f best i (n + 1) = argmaxGo f best (i + 1) n := by
        simp only [argmaxGo]
        rw [if_neg hc]
      have hmax2 : ∀ j, j < i + 1 → f j ≤ f best := by
        intro j hj
        rcases Nat.lt_succ_iff_lt_or_eq.mp hj with h | h
        · exact hmax j h
        · rw [h]
          exact Nat.le_of_not_lt hc
      rw [h1, harith]
      exact ih best (i + 1) (Nat.lt_succ_of_lt hbi) hmax2 hfirst

/-- Scanning a constant score function never replaces the initial best
index. -/
lemma argmaxGo_const (f : ℕ → ℕ) (hf : ∀ a b, f a = f b) :
    ∀ (n best i : ℕ), argmaxGo f best i n = best := by
  intro n
  induction n with
  | zero => intro best i; rfl
  | succ n ih =>
    intro best i
    have hc : ¬ f best < f i := by
      rw [hf best i]
      exact lt_irrefl _
    simp only [argmaxGo]
    rw [if_neg hc]
    exact ih best (i + 1)

/-- Sampling a constant channel yields the constant. -/
lemma sample_const (h w c : ℕ) (i j : ℤ) :
    sample h w (fun _ _ => c) i j = c := rfl

/-- The fixed-point blur of a constant channel is the constant: the
kernel weights sum to 65536 and the rounding offset vanishes in the
shift. -/
lemma blur_const (h w c i j : ℕ) :
    blur h w (fun _ _ => c) i j = c := by
  simp only [blur, sample_const, gaussOffsets, List.map_cons, List.map_nil,
    List.sum_cons, List.sum_nil]
  omega

/-- The Sobel response of a pointwise constant channel vanishes. -/
lemma sobelY_of_const (h w : ℕ) (f : ℕ → ℕ → ℕ) (c : ℕ)
    (hf : ∀ a b, f a b = c) (i j : ℕ) :
    sobelY h w f i j = 0 := by
  simp only [sobelY, sample, hf]
  ring

/-- Every row of a uniform strip has zero edge energy. -/
lemma rowEnergy_const (h w : ℕ) (c : ℕ × ℕ × ℕ) (i : ℕ) :
    rowEnergy h w (fun _ _ => c) i = 0 := by
  have hgray : ∀ a b, grayOf (fun _ _ => c) a b = grayPix c := fun _ _ => rfl
  have hblur : ∀ a b, blur h w (grayOf (fun _ _ => c)) a b = grayPix c := by
    intro a b
    have : blur h w (grayOf (fun _ _ => c)) a b = blur h w (fun _ _ => grayPix c) a b := rfl
    rw [this]
    exact blur_const h w (grayPix c) a b
  have hsob : ∀ j, sobelY h w (blur h w (grayOf (fun _ _ => c))) i j = 0 := by
    intro j
    exact sobelY_of_const h w _ (grayPix c) hblur i j
  simp only [rowEnergy, hsob, Int.natAbs_zero]
  simp

/-! ## Claim theorems -/

/-- C4: for every rectified strip, find_water_line returns the row whose
row-summed absolute vertical-gradient magnitude after luminance
conversion and 7x7 blur is maximal; among tied rows the first in
top-to-bottom scan order wins, and on a uniform strip the result is
row 0. -/
theorem waterline_argmax_first_tie_and_uniform (h w : ℕ) (img : Image3)
    (c : ℕ × ℕ × ℕ) (hh : 0 < h) :
    (findWaterLine h w img < h ∧
      (∀ i, i < h → rowEnergy h w img i ≤ rowEnergy h w img (findWaterLine h w img)) ∧
      (∀ i, i < findWaterLine h w img →
        rowEnergy h w img i < rowEnergy h w img (findWaterLine h w img))) ∧
    findWaterLine h w (fun _ _ => c) = 0 := by
  constructor
  · have hspec := argmaxGo_spec (rowEnergy h w img) (h - 1) 0 1 Nat.zero_lt_one
      (fun j hj => by
        have hj0 : j = 0 := by omega
        rw [hj0])
      (fun j hj => absurd hj (Nat.not_lt_zero j))
    have harith : 1 + (h - 1) = h := by omega
    rw [harith] at hspec
    exact hspec
  · unfold findWaterLine
    exact argmaxGo_const _
      (fun a b => by rw [rowEnergy_const, rowEnergy_const]) _ _ _

/-- Witness for C4 at a concrete one-pixel uniform strip. -/
theorem waterline_argmax_witness :
    findWaterLine 1 1 (fun _ _ => (0, 0, 0)) < 1 ∧
      findWaterLine 1 1 (fun _ _ => (0, 0, 0)) = 0 := by
  have t := waterline_argmax_first_tie_and_uniform 1 1 (fun _ _ => (0, 0, 0))
    (0, 0, 0) (by decide)
  exact ⟨t.1.1, t.2⟩

/-- C7: when no OCR result has purely digit text with confidence above
the threshold, read_level returns the absent pair for the cycle. -/
theorem calibrator_absent_when_none_qualify (results : List OcrResult) (wy : ℚ)
    (h : ∀ r ∈ results, ¬ qualifies r) :
    readLevel results wy = (none, none) :=
  readLevel_none results wy h

/-- Concrete OCR result whose confidence sits exactly at the 0.5
threshold, hence does not qualify. -/
def rLowConf : OcrResult :=
  ⟨(0, 0), (10, 0), (10, 10), (0, 10), "9".toList, 1 / 2⟩

/-- The at-threshold result does not qualify: its confidence is not
strictly above one half. -/
lemma rLowConf_not_qualifies : ∀ r ∈ [rLowConf], ¬ qualifies r := by
  intro r hr
  rw [List.mem_singleton] at hr
  subst hr
  rintro ⟨-, hp⟩
  exact lt_irrefl _ hp

/-- Witness for C7: a list with one at-threshold result yields the
absent pair. -/
theorem calibrator_absent_witness :
    (∀ r ∈ [rLowConf], ¬ qualifies r) ∧ readLevel [rLowConf] 0 = (none, none) :=
  ⟨rLowConf_not_qualifies,
    calibrator_absent_when_none_qualify [rLowConf] 0 rLowConf_not_qualifies⟩

/-- Concrete OCR result whose numeral center row is fractional, making
the unrounded calibration value carry three decimal places. -/
def rC1 : OcrResult :=
  ⟨(0, 100), (150, 100), (150, 10033 / 100), (0, 10033 / 100), "50".toList, 9 / 10⟩

/-- Counterexample to C1 as stated: at this input the returned level is
the rounded value 46.03, not the raw calibration formula value 46.033,
so the calibrator does not return the unrounded formula. -/
theorem calibrator_rounds_cex :
    (readLevel [rC1] 120).1 = some (4603 / 100) ∧
      rawLevel rC1 120 ≠ (4603 / 100 : ℚ) := by
  have hq : qualifies rC1 := ⟨by decide, by norm_num [rC1]⟩
  have hdigits : natOfDigits ['5', '0'] = 50 := by decide
  have hraw : rawLevel rC1 120 = 46033 / 1000 := by
    simp only [rawLevel, rC1]
    norm_num [hdigits]
  have hround : pyRound2 (46033 / 1000) = 4603 / 100 := by
    unfold pyRound2 roundHalfEven
    norm_num
  have h1 := readLevel_first [] rC1 [] 120 (by simp) hq
  rw [List.nil_append] at h1
  constructor
  · rw [h1, hraw, hround]
  · rw [hraw]
    norm_num

/-- The worked example of the specification: numeral 50 with center row
100 (corner rows 95 and 105). -/
def exC1 : OcrResult :=
  ⟨(10, 95), (140, 95), (140, 105), (10, 105), "50".toList, 9 / 10⟩

/-- C1 amended: the calibrator selects the first OCR result whose text
is purely digits with confidence strictly above 0.5 and returns the
calibration formula value rounded to two decimal places (halves to
even); in particular numeral 50 centered at row 100 with water line row
120 yields level 46.0. -/
theorem calibrator_first_digit_result_rounded :
    (∀ (pre post : List OcrResult) (r : OcrResult) (wy : ℚ),
        (∀ s ∈ pre, ¬ qualifies s) → qualifies r →
        readLevel (pre ++ r :: post) wy =
          (some (pyRound2 (rawLevel r wy)), some r.text)) ∧
    readLevel [exC1] 120 = (some 46, some ("50".toList)) := by
  constructor
  · intro pre post r wy hpre hr
    exact readLevel_first pre r post wy hpre hr
  · have hq : qualifies exC1 := ⟨by decide, by norm_num [exC1]⟩
    have hdigits : natOfDigits ['5', '0'] = 50 := by decide
    have hraw : rawLevel exC1 120 = 46 := by
      simp only [rawLevel, exC1]
      norm_num [hdigits]
    have hround : pyRound2 (46 : ℚ) = 46 := by
      unfold pyRound2 roundHalfEven
      norm_num
    have h1 := readLevel_first [] exC1 [] 120 (by simp) hq
    rw [List.nil_append] at h1
    rw [h1, hraw, hround]
    rfl

/-- Non-qualifying OCR result with alphabetic text. -/
def nqC1 : OcrResult := ⟨(0, 0), (1, 0), (1, 2), (0, 2), "ab".toList, 1⟩

/-- Qualifying OCR result for the C1 witness, numeral 12 centered at
row 50. -/
def wC1 : OcrResult := ⟨(0, 40), (50, 40), (50, 60), (0, 60), "12".toList, 3 / 4⟩

/-- Witness for C1 amended: the first qualifying result after one
non-qualifying result determines the reading. -/
theorem calibrator_first_digit_result_rounded_witness :
    readLevel ([nqC1] ++ wC1 :: []) 55 =
      (some (pyRound2 (rawLevel wC1 55)), some wC1.text) := by
  have hpre : ∀ s ∈ [nqC1], ¬ qualifies s := by
    intro s hs
    rw [List.mem_singleton] at hs
    subst hs
    intro hq
    exact absurd hq.1 (by decide)
  exact calibrator_first_digit_result_rounded.1 [nqC1] [] wC1 55 hpre
    ⟨by decide, by norm_num [wC1]⟩

/-! ## Helper lemmas about the driver loop -/

/-- Any CSV record produced by a driver iteration is exactly the
read_level return value at the water line row the iteration computed. -/
lemma driverStep_wrote_eq (cap : Option Frame) (ocr : List OcrResult)
    (line : List Char) (p : ℚ × Option (List Char))
    (h : (driverStep cap ocr line).wrote = some p) :
    ∃ wy : ℚ, readLevel ocr wy = (some p.1, p.2) := by
  unfold driverStep at h
  split at h
  · exact absurd h (by simp)
  · split at h
    · exact absurd h (by simp)
    · split at h
      · split at h
        · exact absurd h (by simp)
        · split at h
          next l0 ref0 heq =>
            injection h with h
            subst h
            exact ⟨_, heq⟩
          next heq => exact absurd h (by simp)
      · exact absurd h (by simp)

/-- Concrete OCR result for the C10 rounding contrast: numeral 7 with a
fractional center row making the raw level 5.067. -/
def rC10 : OcrResult :=
  ⟨(0, 50), (30, 50), (30, 5067 / 100), (0, 5067 / 100), "7".toList, 4 / 5⟩

/-- C10: every present level returned by read_level, and hence every
level a driver iteration writes to the CSV record, is the calibration
formula value rounded to two decimal places; at the contrast input the
rounded value 5.07 differs from the raw value 5.067. -/
theorem csv_level_is_rounded :
    (∀ (results : List OcrResult) (wy l : ℚ),
        (readLevel results wy).1 = some l →
        ∃ r, r ∈ results ∧ qualifies r ∧ l = pyRound2 (rawLevel r wy)) ∧
    (∀ (cap : Option Frame) (ocr : List OcrResult) (line : List Char)
        (l : ℚ) (ref : Option (List Char)),
        (driverStep cap ocr line).wrote = some (l, ref) →
        ∃ r wy, r ∈ ocr ∧ qualifies r ∧ l = pyRound2 (rawLevel r wy)) ∧
    ((readLevel [rC10] 60).1 = some (507 / 100) ∧
      rawLevel rC10 60 = 5067 / 1000 ∧ (507 / 100 : ℚ) ≠ 5067 / 1000) := by
  have part1 : ∀ (results : List OcrResult) (wy l : ℚ),
      (readLevel results wy).1 = some l →
      ∃ r, r ∈ results ∧ qualifies r ∧ l = pyRound2 (rawLevel r wy) := by
    intro results wy l h
    obtain ⟨r, hr, hq, hl, -⟩ := readLevel_some results wy l h
    exact ⟨r, hr, hq, hl⟩
  refine ⟨part1, ?_, ?_⟩
  · intro cap ocr line l ref h
    obtain ⟨wy, hrl⟩ := driverStep_wrote_eq cap ocr line (l, ref) h
    have h1 : (readLevel ocr wy).1 = some l := by rw [hrl]
    obtain ⟨r, hr, hq, hl⟩ := part1 ocr wy l h1
    exact ⟨r, wy, hr, hq, hl⟩
  · have hq : qualifies rC10 := ⟨by decide, by norm_num [rC10]⟩
    have hdigits : natOfDigits ['7'] = 7 := by decide
    have hraw : rawLevel rC10 60 = 5067 / 1000 := by
      simp only [rawLevel, rC10]
      norm_num [hdigits]
    have hround : pyRound2 (5067 / 1000) = 507 / 100 := by
      unfold pyRound2 roundHalfEven
      norm_num
    have h1 := readLevel_first [] rC10 [] 60 (by simp) hq
    rw [List.nil_append] at h1
    refine ⟨?_, hraw, by norm_num⟩
    rw [h1, hraw, hround]

/-- Qualifying OCR result for the C10 witness, numeral 3 centered at
row 1 with integral level. -/
def wC10 : OcrResult := ⟨(0, 0), (5, 0), (5, 2), (0, 2), "3".toList, 7 / 10⟩

/-- Witness for C10: applying the theorem at a concrete present level. -/
theorem csv_level_is_rounded_witness :
    (readLevel [wC10] 5).1 = some (11 / 5) ∧
      (∃ r, r ∈ [wC10] ∧ qualifies r ∧ (11 / 5 : ℚ) = pyRound2 (rawLevel r 5)) := by
  have hq : qualifies wC10 := ⟨by decide, by norm_num [wC10]⟩
  have hdigits : natOfDigits ['3'] = 3 := by decide
  have hraw : rawLevel wC10 5 = 11 / 5 := by
    simp only [rawLevel, wC10]
    norm_num [hdigits]
  have hround : pyRound2 (11 / 5) = 11 / 5 := by
    unfold pyRound2 roundHalfEven
    norm_num
  have h1 := readLevel_first [] wC10 [] 5 (by simp) hq
  rw [List.nil_append] at h1
  have hlev : (readLevel [wC10] 5).1 = some (11 / 5) := by
    rw [h1, hraw, hround]
  exact ⟨hlev, csv_level_is_rounded.1 [wC10] 5 (11 / 5) hlev⟩

/-- C6: the two components of a read_level return value are present or
absent together, and the driver only appends a CSV record whose
reference numeral component is present. -/
theorem reading_level_iff_numeral :
    (∀ (results : List OcrResult) (wy : ℚ),
        (readLevel results wy).1.isSome = (readLevel results wy).2.isSome) ∧
    (∀ (cap : Option Frame) (ocr : List OcrResult) (line : List Char),
        Option.all (fun p => p.2.isSome) (driverStep cap ocr line).wrote = true) := by
  refine ⟨readLevel_isSome, ?_⟩
  intro cap ocr line
  cases hw : (driverStep cap ocr line).wrote with
  | none => rfl
  | some p =>
    obtain ⟨wy, hrl⟩ := driverStep_wrote_eq cap ocr line p hw
    have hs := readLevel_isSome ocr wy
    rw [hrl] at hs
    simp only [Option.isSome_some] at hs
    simp only [Option.all]
    exact hs.symm

/-- C5: actionability is exactly case-insensitive label equality with
the target together with confidence strictly above 0.3; confidence
exactly 0.3 is not actionable, and a non-actionable detection leaves
the driver iteration with no record, no sleep and no crash. -/
theorem actionable_iff_case_insensitive_and_strict
    (cap : Option Frame) (ocr : List OcrResult) (line : List Char)
    (g : Groups) (conf : ℚ)
    (hs : search line = some g) (hf : pyFloat g.conf = some conf) :
    (actionable g.label conf ↔
      (pyLower g.label = pyLower TARGET_LABEL ∧ 3 / 10 < conf)) ∧
    (conf = 3 / 10 → ¬ actionable g.label conf) ∧
    (¬ actionable g.label conf →
      driverStep cap ocr line = ⟨none, false, false⟩) := by
  have hT : pyLower TARGET_LABEL = TARGET_LABEL := by decide
  refine ⟨?_, ?_, ?_⟩
  · unfold actionable
    rw [hT]
  · intro hc hact
    subst hc
    exact lt_irrefl _ hact.2
  · intro hact
    simp only [driverStep, hs, hf]
    rw [if_neg hact]

/-- The boundary detector line: target label with confidence exactly at
the threshold 0.3. -/
def lineC5 : List Char := "Object: staff_gauge[0] (0.3) @ 1,2 3x4".toList

/-- Capture groups of the boundary line. -/
def gC5 : Groups :=
  ⟨"staff_gauge".toList, "0.3".toList, "1".toList, "2".toList, "3".toList, "4".toList⟩

/-- Witness for C5: the boundary line is parsed, is not actionable, and
the iteration has no effects. -/
theorem actionable_boundary_witness :
    ¬ actionable gC5.label (3 / 10) ∧
      driverStep none [] lineC5 = ⟨none, false, false⟩ := by
  have hs : search lineC5 = some gC5 := by decide
  have hf : pyFloat gC5.conf = some (3 / 10) := by
    simp [pyFloat, gC5, natOfDigits]
  have t := actionable_iff_case_insensitive_and_strict none [] lineC5 gC5
    (3 / 10) hs hf
  have hna := t.2.1 rfl
  exact ⟨hna, t.2.2 hna⟩

/-- The malformed-confidence detector line: the confidence group is a
lone dot, which the pattern accepts but float() rejects. -/
def lineC3 : List Char := "Object: gauge[0] (.) @ 1,2 3x4".toList

/-- C3 failing input: the pattern matches the lone-dot confidence line,
float() on the captured group raises (modelled by none), and the
iteration ends with an uncaught exception that terminates the driver
loop. -/
theorem parser_malformed_conf_crashes_loop :
    search lineC3 =
      some ⟨"gauge".toList, ".".toList, "1".toList, "2".toList,
        "3".toList, "4".toList⟩ ∧
    pyFloat (".".toList) = none ∧
    driverStep none [] lineC3 = ⟨none, false, true⟩ := by
  refine ⟨by decide, by decide, by decide⟩

/-- An actionable detector line for the cool-down contrast. -/
def lineC9 : List Char := "Object: staff_gauge[5] (0.8) @ 10,20 30x40".toList

/-- Capture groups of the actionable line. -/
def gC9 : Groups :=
  ⟨"staff_gauge".toList, "0.8".toList, "10".toList, "20".toList,
    "30".toList, "40".toList⟩

/-- C9 failing input: on an actionable detection whose snapshot cannot
be decoded (cv2.imread returns None), the continue on line 53 of
digital_reader.py skips the rest of the body, so the cool-down sleep
does not run and the next line is processed immediately. -/
theorem cooldown_skipped_on_capture_failure :
    search lineC9 = some gC9 ∧ actionable gC9.label (4 / 5) ∧
      driverStep none [] lineC9 = ⟨none, false, false⟩ := by
  have hs : search lineC9 = some gC9 := by decide
  have hf0 : pyFloat gC9.conf = some (8 / 10) := by
    simp [pyFloat, gC9, natOfDigits]
  have hf : pyFloat gC9.conf = some (4 / 5) := by
    rw [hf0]
    norm_num
  have hact : actionable gC9.label (4 / 5) := ⟨by decide, by norm_num⟩
  refine ⟨hs, hact, ?_⟩
  simp only [driverStep, hs, hf]
  rw [if_pos hact]

/-- Clamping of a point to the frame extent, as the specification
prescribes for the Rectifier failure path (clamp box coordinates to
the extent of the Frame before transforming).  This definition follows
the specification wording and is compared against the source points the
code actually uses. -/
def specClampPt (W H : ℕ) (p : ℕ × ℕ) : ℕ × ℕ :=
  (min p.1 W, min p.2 H)

/-- The source corner list after the clamping the specification
prescribes. -/
def specClampedPts (W H x y w h : ℕ) : List (ℕ × ℕ) :=
  (sourcePts x y w h).map (specClampPt W H)

/-- Counterexample to C2 as stated: for a 100 by 100 frame and the box
at (50, 50) of size 100 by 100, the corner list the code passes to the
transform contains the out-of-frame corner (150, 150) and differs from
the clamped corner list, so no clamping happens before the transform. -/
theorem rectifier_unclamped_cex :
    specClampedPts 100 100 50 50 100 100 ≠ sourcePts 50 50 100 100 ∧
      (150, 150) ∈ sourcePts 50 50 100 100 := by
  decide

/-- C2 amended: get_warped_gauge builds the source corners from the raw
box fields with no clamping; the corners coincide with their clamped
versions exactly when the box lies inside the frame, and for any box
extending past the frame they differ. -/
theorem rectifier_clamped_iff_box_in_frame (W H x y w h : ℕ) :
    specClampedPts W H x y w h = sourcePts x y w h ↔
      (x + w ≤ W ∧ y + h ≤ H) := by
  simp only [specClampedPts, sourcePts, specClampPt, List.map_cons,
    List.map_nil, List.cons.injEq, Prod.mk.injEq, and_true]
  omega

/-- Any value float() produces from a digits-and-dots group is
non-negative. -/
lemma pyFloat_nonneg (s : List Char) (c : ℚ) (h : pyFloat s = some c) :
    0 ≤ c := by
  simp only [pyFloat] at h
  split_ifs at h
  all_goals
    injection h with h
  all_goals
    rw [← h]
    positivity

/-- The over-unit confidence line: the pattern accepts the confidence
group 2.5, above the upper bound the data model declares. -/
def lineC8 : List Char := "Object: gauge[1] (2.5) @ 3,4 5x6".toList

/-- Capture groups of the over-unit confidence line. -/
def gC8 : Groups :=
  ⟨"gauge".toList, "2.5".toList, "3".toList, "4".toList, "5".toList, "6".toList⟩

/-- Counterexample to C8 as stated: the pattern matches a line whose
parsed confidence is 2.5, outside the unit interval. -/
theorem detection_confidence_above_one_cex :
    search lineC8 = some gC8 ∧ pyFloat gC8.conf = some (5 / 2) ∧
      ¬ ((5 / 2 : ℚ) ≤ 1) := by
  refine ⟨by decide, ?_, by norm_num⟩
  have h0 : pyFloat gC8.conf = some (2 + 5 / 10) := by
    simp [pyFloat, gC8, natOfDigits]
  rw [h0]
  norm_num

/-- C8 amended: the confidence parsed from any matched detector line is
a non-negative rational; the pattern imposes no upper bound, so values
above 1 pass through. -/
theorem detection_confidence_nonneg (line : List Char) (g : Groups) (c : ℚ)
    (hs : search line = some g) (hf : pyFloat g.conf = some c) :
    0 ≤ c :=
  pyFloat_nonneg g.conf c hf

/-- A matched line with an in-range confidence for the C8 witness. -/
def lineC8w : List Char := "Object: pump[2] (0.9) @ 7,8 9x10".toList

/-- Capture groups of the C8 witness line. -/
def gC8w : Groups :=
  ⟨"pump".toList, "0.9".toList, "7".toList, "8".toList, "9".toList, "10".toList⟩

/-- Witness for C8 amended at a concrete matched line. -/
theorem detection_confidence_nonneg_witness :
    search lineC8w = some gC8w ∧ pyFloat gC8w.conf = some (9 / 10) ∧
      (0 : ℚ) ≤ 9 / 10 := by
  have hs : search lineC8w = some gC8w := by decide
  have hf : pyFloat gC8w.conf = some (9 / 10) := by
    simp [pyFloat, gC8w, natOfDigits]
  exact ⟨hs, hf, detection_confidence_nonneg lineC8w gC8w (9 / 10) hs hf⟩
